import Mathlib

/-!
# Verification of the text-document-similarity engine

Shallow embedding of `src/main.py`: the tokenizer `word_vector` and the
similarity pipeline `similarity_check` (merge of a new document into the
persisted term-document matrix, document registry append, L1 normalization
and euclidean-distance ranking).

Modelling conventions:
* Python strings are Lean `String`s; the regex character class `\w` is
  modelled as ASCII alphanumerics plus underscore, `\s` as whitespace.
* `pandas.DataFrame`s are modelled by their observable content: the
  `word_vec.csv` table is a list of row labels (`terms`, the "words"
  column) together with one `(doc_id, counts)` column per document, each
  count list aligned with `terms`; `doc_by_id.csv` is a list of
  `(doc_id, text)` rows.
* float arithmetic is modelled exactly over `ℚ`; the euclidean distance is
  represented by its square (`x ↦ x^2` is strictly monotone on `[0,∞)`, so
  ascending order by distance and by squared distance coincide).
* Python's stable `sorted(range(n), key=lambda k: ls[k])` is modelled as
  sorting the indices by the lexicographic order on `(ls[k], k)`; for
  distinct indices this is exactly the stable sort by key.
-/

namespace TextSim

/-! ## Tokenizer (`word_vector`, main.py lines 36-50) -/

/-- The regex class `\w` (ASCII model): letters, digits and underscore. -/
def isWordChar (c : Char) : Bool := c.isAlphanum || c == '_'

/-- `re.sub("\W+", " ", s)`: every maximal run of non-word characters is
replaced by a single space. -/
def squashNonWord : List Char → List Char
  | [] => []
  | [c] => if isWordChar c then [c] else [' ']
  | c :: d :: cs =>
    if isWordChar c then c :: squashNonWord (d :: cs)
    else if isWordChar d then ' ' :: squashNonWord (d :: cs)
    else squashNonWord (d :: cs)

/-- Split at every single character satisfying `p`, keeping empty fields. -/
def splitSingle (p : Char → Bool) : List Char → List (List Char)
  | [] => [[]]
  | c :: cs =>
    match splitSingle p cs with
    | [] => [[]]
    | w :: ws => if p c then [] :: w :: ws else (c :: w) :: ws

/-- Drop empty fields except the last one. -/
def keepLastNonempty : List (List Char) → List (List Char)
  | [] => []
  | [w] => [w]
  | w :: v :: ws =>
    if w = [] then keepLastNonempty (v :: ws) else w :: keepLastNonempty (v :: ws)

/-- `re.split("\s+", s)`: fields between maximal whitespace runs.  A leading or
trailing run contributes an empty boundary field; interior empty fields cannot
occur (two adjacent separators belong to one run). -/
def splitWsRuns (l : List Char) : List (List Char) :=
  match splitSingle (fun c => c.isWhitespace) l with
  | [] => []
  | w :: ws => w :: keepLastNonempty ws

/-- Line 40: `re.split("\s+", re.sub("\W+", " ", string).lower())`. -/
def tokens (string : String) : List String :=
  (splitWsRuns ((squashNonWord string.data).map Char.toLower)).map
    (fun w => String.mk w)

/-- One iteration of the dictionary loop (lines 44-48):
`dic[word] += 1` when present, `dic[word] = 1` otherwise. -/
def bump (word : String) : List (String × Nat) → List (String × Nat)
  | [] => [(word, 1)]
  | (w, n) :: d => if w = word then (w, n + 1) :: d else (w, n) :: bump word d

/-- `word_vector` (lines 36-50): term → frequency mapping in insertion order
(the row order of the returned dataframe). -/
def word_vector (string : String) : List (String × Nat) :=
  (tokens string).foldl (fun d w => bump w d) []

/-! ## Term-document store (`word_vec.csv`) and registry (`doc_by_id.csv`) -/

/-- The persisted `word_vec.csv` table: the "words" row-label column and one
count column per document, each aligned with `terms`. -/
structure Store where
  terms : List String
  cols : List (Nat × List Nat)
  deriving DecidableEq

/-- The bootstrapped file (lines 72-75): only the `words` header, no rows. -/
def Store.empty : Store := ⟨[], []⟩

/-- `df_word_vec.columns`: the "words" label plus one column name per document. -/
def colNames (s : Store) : List String :=
  "words" :: s.cols.map (fun c => toString c.1)

/-- Line 87: `doc_id = len(df_word_vec.columns)`. -/
def nextId (s : Store) : Nat := (colNames s).length

/-- Count of a term in a document's word vector, 0 when absent (the
`fillna(0)` convention of line 98 for the new column). -/
def lookupCount (wv : List (String × Nat)) (t : String) : Nat :=
  match wv.find? (fun p => p.1 == t) with
  | some p => p.2
  | none => 0

/-- The terms of the new document that the store has not seen yet, in
first-occurrence order (the rows the outer join appends). -/
def newTerms (s : Store) (wv : List (String × Nat)) : List String :=
  (wv.map Prod.fst).filter (fun t => !(s.terms.contains t))

/-- Lines 96-98: `pd.merge(df_word_vec, df_wvec, how="outer", on="words")`
followed by `fillna(0)`.  Rows are the old rows followed by the unseen new
terms; old columns receive 0 on the appended rows; the new column holds the
document's counts with 0 for every term it lacks. -/
def mergeDoc (s : Store) (id : Nat) (wv : List (String × Nat)) : Store :=
  let nts := newTerms s wv
  { terms := s.terms ++ nts,
    cols := s.cols.map (fun c => (c.1, c.2 ++ List.replicate nts.length 0))
            ++ [(id, (s.terms ++ nts).map (fun t => lookupCount wv t))] }

/-- The matrix cell for term `t` and document `i` (0 when out of range). -/
def cell (s : Store) (t : String) (i : Nat) : Nat :=
  match s.cols.find? (fun c => c.1 == i) with
  | some c => c.2.getD (s.terms.indexOf t) 0
  | none => 0

/-- The two persisted files together: `word_vec.csv` and `doc_by_id.csv`. -/
structure SysState where
  store : Store
  reg : List (Nat × String)
  deriving DecidableEq

/-- Both files freshly bootstrapped (headers only). -/
def SysState.init : SysState := ⟨Store.empty, []⟩

/-! ## Similarity engine (lines 109-137) -/

/-- Line 113: a column L1-normalized to a frequency distribution
(`df_word_vec[col] / df_word_vec[col].sum()`), computed exactly over `ℚ`. -/
def freqVec (col : List Nat) : List ℚ :=
  col.map (fun n : Nat => (n : ℚ) / (col.sum : ℚ))

/-- Squared euclidean distance between two aligned vectors
(`np.linalg.norm(v - w)` squared, line 124). -/
def distSq (v w : List ℚ) : ℚ :=
  (List.zipWith (fun a b => (a - b) ^ 2) v w).sum

/-- Dot product of two aligned vectors. -/
def dotQ (v w : List ℚ) : ℚ := (List.zipWith (fun a b => a * b) v w).sum

/-- Sum of squared entries (squared L2 norm). -/
def sumSq (v : List ℚ) : ℚ := (v.map (fun a => a ^ 2)).sum

/-- Lines 120-121: every column except the query's own. -/
def candidates (s : Store) (qid : Nat) : List (Nat × List Nat) :=
  s.cols.filter (fun c => !(c.1 == qid))

/-- The query document's column (line 116). -/
def queryCol (s : Store) (qid : Nat) : List Nat :=
  match s.cols.find? (fun c => c.1 == qid) with
  | some c => c.2
  | none => []

/-- Lines 119-124: squared euclidean distance from the query to every
candidate column, in column order. -/
def distances (s : Store) (qid : Nat) : List ℚ :=
  (candidates s qid).map (fun c => distSq (freqVec (queryCol s qid)) (freqVec c.2))

/-- The order in which Python's stable `sorted(range(n), key=lambda k: ls[k])`
(line 127) emits the indices: lexicographic in `(ls[k], k)`. -/
def KeyOrder (ls : List ℚ) (i j : Nat) : Prop :=
  ls.getD i 0 < ls.getD j 0 ∨ (ls.getD i 0 = ls.getD j 0 ∧ i ≤ j)

instance (ls : List ℚ) : DecidableRel (KeyOrder ls) := fun i j => by
  unfold KeyOrder; infer_instance

/-- Line 127: `sort_ls = sorted(range(len(ls_distance)), key=lambda k: ls_distance[k])`. -/
def sortIdx (ls : List ℚ) : List Nat :=
  List.insertionSort (KeyOrder ls) (List.range ls.length)

/-- Lines 130-137: the emitted ranking — the first three sorted positions
(`if index == 2: break`), each reported with its candidate's document id and
squared distance. -/
def rankResults (s : Store) (qid : Nat) : List (Nat × ℚ) :=
  ((sortIdx (distances s qid)).take 3).map
    (fun k => (((candidates s qid).getD k (0, [])).1, (distances s qid).getD k 0))

/-- The observable outcome of one `similarity_check` call. -/
inductive Outcome where
  | added
  | insufficient
  | ranked (results : List (Nat × ℚ))
  deriving DecidableEq

/-- Lines 85-102: assign the id, append to the registry, merge the word
vector into the matrix and save both files. -/
def insertState (st : SysState) (document_str : String) : SysState :=
  { store := mergeDoc st.store (nextId st.store) (word_vector document_str),
    reg := st.reg ++ [(nextId st.store, document_str)] }

/-- `similarity_check` (lines 56-137): insert the document into both files
(the save of lines 100-102 happens unconditionally, before the corpus-size
check of line 105), then either report the insufficient corpus, stay silent
(`add_document = true`), or emit the ranking. -/
def similarity_check (st : SysState) (document_str : String) (add_document : Bool) :
    SysState × Outcome :=
  let doc_id := nextId st.store
  let st2 := insertState st document_str
  if doc_id = 1 ∧ add_document = false then (st2, Outcome.insufficient)
  else if add_document then (st2, Outcome.added)
  else (st2, Outcome.ranked (rankResults st2.store doc_id))

/-- Bulk-adding a list of documents (the loop of lines 155-156). -/
def runAdds (docs : List String) : SysState :=
  docs.foldl (fun st d => (similarity_check st d true).1) SysState.init

/-! ## Tokenizer lemmas -/

theorem splitSingle_ne_nil (p : Char → Bool) : ∀ l : List Char, splitSingle p l ≠ []
  | [] => by simp [splitSingle]
  | c :: cs => by
    simp only [splitSingle]
    cases h : splitSingle p cs with
    | nil => simp
    | cons w ws => by_cases hp : p c <;> simp [hp]

theorem splitWsRuns_ne_nil (l : List Char) : splitWsRuns l ≠ [] := by
  unfold splitWsRuns
  cases h : splitSingle (fun c => c.isWhitespace) l with
  | nil => exact absurd h (splitSingle_ne_nil _ _)
  | cons w ws => simp

/-- `re.split` always returns at least one field, so every document has at
least one token (possibly the empty string). -/
theorem tokens_ne_nil (s : String) : tokens s ≠ [] := by
  unfold tokens
  simp only [ne_eq, List.map_eq_nil_iff]
  exact splitWsRuns_ne_nil _

theorem bump_sum (w : String) (d : List (String × Nat)) :
    ((bump w d).map Prod.snd).sum = (d.map Prod.snd).sum + 1 := by
  induction d with
  | nil => simp [bump]
  | cons p d ih =>
    obtain ⟨u, n⟩ := p
    simp only [bump]
    split
    · simp
      try omega
    · simp [ih]
      try omega

theorem bump_pos (w : String) (d : List (String × Nat)) (hd : ∀ p ∈ d, 1 ≤ p.2) :
    ∀ p ∈ bump w d, 1 ≤ p.2 := by
  induction d with
  | nil =>
    intro p hp
    simp [bump] at hp
    simp [hp]
  | cons q d ih =>
    obtain ⟨u, n⟩ := q
    intro p hp
    simp only [bump] at hp
    split at hp
    · rcases List.mem_cons.mp hp with h | h
      · have := hd (u, n) (List.mem_cons_self _ _)
        simp [h]
        try omega
      · exact hd p (List.mem_cons_of_mem _ h)
    · rcases List.mem_cons.mp hp with h | h
      · exact h ▸ hd (u, n) (List.mem_cons_self _ _)
      · exact ih (fun q hq => hd q (List.mem_cons_of_mem _ hq)) p h

theorem foldl_bump_sum (ts : List String) (d : List (String × Nat)) :
    (((ts.foldl (fun d w => bump w d) d)).map Prod.snd).sum
      = (d.map Prod.snd).sum + ts.length := by
  induction ts generalizing d with
  | nil => simp
  | cons t ts ih => simp [List.foldl_cons, ih (bump t d), bump_sum]; omega

/-- The total count of a document's word vector is its number of tokens. -/
theorem word_vector_sum (s : String) :
    ((word_vector s).map Prod.snd).sum = (tokens s).length := by
  unfold word_vector; rw [foldl_bump_sum]; simp

/-- Every document produces a nonempty word vector. -/
theorem word_vector_ne_nil (s : String) : word_vector s ≠ [] := by
  intro h
  have hs := word_vector_sum s
  rw [h] at hs
  simp at hs
  exact tokens_ne_nil s (List.length_eq_zero.mp hs.symm)

theorem foldl_bump_pos (ts : List String) (d : List (String × Nat))
    (hd : ∀ p ∈ d, 1 ≤ p.2) : ∀ p ∈ ts.foldl (fun d w => bump w d) d, 1 ≤ p.2 := by
  induction ts generalizing d with
  | nil => exact hd
  | cons t ts ih => exact ih (bump t d) (bump_pos t d hd)

/-- Every count in a word vector is at least 1. -/
theorem word_vector_pos (s : String) : ∀ p ∈ word_vector s, 1 ≤ p.2 :=
  foldl_bump_pos _ _ (by simp)

/-! ## Store invariants -/

theorem le_sum_of_mem {l : List Nat} {a : Nat} (h : a ∈ l) : a ≤ l.sum :=
  List.single_le_sum (fun x _ => Nat.zero_le x) a h

/-- The head term of a nonempty word vector is found by `lookupCount` with a
count of at least 1, and it survives into the merged row list. -/
theorem lookup_head_pos (s : Store) (d : String) :
    ∃ t ∈ s.terms ++ newTerms s (word_vector d), 1 ≤ lookupCount (word_vector d) t := by
  rcases hwv : word_vector d with _ | ⟨⟨t₀, n₀⟩, rest⟩
  · exact absurd hwv (word_vector_ne_nil d)
  · refine ⟨t₀, ?_, ?_⟩
    · by_cases ht : t₀ ∈ s.terms
      · exact List.mem_append_left _ ht
      · refine List.mem_append_right _ ?_
        unfold newTerms
        refine List.mem_filter.mpr ⟨?_, ?_⟩
        · simp
        · simp [ht]
    · unfold lookupCount
      simp only [List.find?_cons]
      have : ((t₀, n₀).1 == t₀) = true := by simp
      rw [this]
      have := word_vector_pos d (t₀, n₀) (by rw [hwv]; exact List.mem_cons_self _ _)
      simpa using this

/-- The new column written by `mergeDoc` has total count at least 1. -/
theorem mergeDoc_newcol_sum (s : Store) (d : String) :
    1 ≤ ((s.terms ++ newTerms s (word_vector d)).map
          (fun t => lookupCount (word_vector d) t)).sum := by
  obtain ⟨t, ht, hpos⟩ := lookup_head_pos s d
  exact le_trans hpos (le_sum_of_mem (List.mem_map_of_mem _ ht))

/-- The well-formedness invariant of the persisted matrix: every column is
aligned with the row labels, column ids are `1, 2, …, n` in order, and every
column has a positive total count. -/
def Store.WF (s : Store) : Prop :=
  (∀ c ∈ s.cols, c.2.length = s.terms.length) ∧
  s.cols.map Prod.fst = List.range' 1 s.cols.length ∧
  (∀ c ∈ s.cols, 1 ≤ c.2.sum)

theorem WF_empty : Store.WF Store.empty :=
  ⟨by simp [Store.empty], by simp [Store.empty], by simp [Store.empty]⟩

/-- The assigned id is one more than the number of document columns. -/
theorem nextId_eq (s : Store) : nextId s = s.cols.length + 1 := by
  simp [nextId, colNames]

theorem mergeDoc_cols_length (s : Store) (id : Nat) (wv : List (String × Nat)) :
    (mergeDoc s id wv).cols.length = s.cols.length + 1 := by
  simp [mergeDoc]

/-- Merging a fresh document at the assigned id preserves well-formedness. -/
theorem WF_mergeDoc (s : Store) (d : String) (h : Store.WF s) :
    Store.WF (mergeDoc s (nextId s) (word_vector d)) := by
  obtain ⟨hlen, hids, hsum⟩ := h
  refine ⟨?_, ?_, ?_⟩
  · intro c hc
    simp only [mergeDoc, List.mem_append, List.mem_map, List.mem_singleton] at hc
    rcases hc with ⟨c₀, hc₀, rfl⟩ | rfl
    · simp [mergeDoc, hlen c₀ hc₀]
    · simp [mergeDoc]
  · rw [mergeDoc_cols_length]
    unfold mergeDoc
    simp only [List.map_append, List.map_map, List.map_cons, List.map_nil]
    have h1 : s.cols.map (Prod.fst ∘ fun c : Nat × List Nat =>
        (c.1, c.2 ++ List.replicate (newTerms s (word_vector d)).length 0))
        = s.cols.map Prod.fst := rfl
    rw [h1, hids, nextId_eq, List.range'_concat]
    simp [Nat.add_comm]
  · intro c hc
    simp only [mergeDoc, List.mem_append, List.mem_map, List.mem_singleton] at hc
    rcases hc with ⟨c₀, hc₀, rfl⟩ | rfl
    · simpa using hsum c₀ hc₀
    · exact mergeDoc_newcol_sum s d

/-! ## State evolution -/

/-- The state written by `similarity_check` (the save of lines 100-102):
both files receive the inserted document unconditionally, whatever the
outcome — in particular the write precedes the corpus-size check. -/
theorem similarity_check_fst (st : SysState) (d : String) (b : Bool) :
    (similarity_check st d b).1 = insertState st d := by
  unfold similarity_check
  dsimp only
  split_ifs <;> rfl

theorem runAdds_append (docs : List String) (d : String) :
    runAdds (docs ++ [d]) = (similarity_check (runAdds docs) d true).1 := by
  unfold runAdds
  rw [List.foldl_append]
  simp only [List.foldl_cons, List.foldl_nil]

theorem WF_foldl (docs : List String) (st : SysState) (h : Store.WF st.store) :
    Store.WF ((docs.foldl (fun st d => (similarity_check st d true).1) st)).store ∧
    ((docs.foldl (fun st d => (similarity_check st d true).1) st)).store.cols.length
      = st.store.cols.length + docs.length := by
  induction docs generalizing st with
  | nil => simpa
  | cons d docs ih =>
    simp only [List.foldl_cons]
    have hstep : Store.WF ((similarity_check st d true).1).store ∧
        ((similarity_check st d true).1).store.cols.length = st.store.cols.length + 1 := by
      rw [similarity_check_fst]
      exact ⟨WF_mergeDoc st.store d h, mergeDoc_cols_length _ _ _⟩
    obtain ⟨h1, h2⟩ := ih _ hstep.1
    exact ⟨h1, by rw [h2, hstep.2]; simp only [List.length_cons]; omega⟩

theorem WF_runAdds (docs : List String) : Store.WF (runAdds docs).store :=
  (WF_foldl docs SysState.init WF_empty).1

/-- After `N` insertions the matrix has exactly `N` document columns. -/
theorem runAdds_cols_length (docs : List String) :
    (runAdds docs).store.cols.length = docs.length := by
  have h := (WF_foldl docs SysState.init WF_empty).2
  simpa [SysState.init, Store.empty, runAdds] using h

theorem mergeDoc_terms (s : Store) (id : Nat) (wv : List (String × Nat)) :
    (mergeDoc s id wv).terms = s.terms ++ newTerms s wv := rfl

/-- The merged row set is the union of the old rows and the new vocabulary. -/
theorem mem_mergeDoc_terms (s : Store) (id : Nat) (wv : List (String × Nat)) (t : String) :
    t ∈ (mergeDoc s id wv).terms ↔ t ∈ s.terms ∨ t ∈ wv.map Prod.fst := by
  rw [mergeDoc_terms, List.mem_append]
  constructor
  · rintro (h | h)
    · exact Or.inl h
    · exact Or.inr (List.mem_of_mem_filter h)
  · rintro (h | h)
    · exact Or.inl h
    · by_cases hs : t ∈ s.terms
      · exact Or.inl hs
      · exact Or.inr (List.mem_filter.mpr ⟨h, by simp [hs]⟩)

theorem terms_foldl_mem (docs : List String) (st : SysState) (t : String) :
    (t ∈ ((docs.foldl (fun st d => (similarity_check st d true).1) st)).store.terms
      ↔ t ∈ st.store.terms ∨ ∃ d ∈ docs, t ∈ (word_vector d).map Prod.fst) := by
  induction docs generalizing st with
  | nil => simp
  | cons e docs ih =>
    simp only [List.foldl_cons]
    rw [ih, similarity_check_fst]
    simp only [insertState]
    rw [mem_mergeDoc_terms]
    simp only [List.mem_cons]
    constructor
    · rintro ((h | h) | ⟨d, hd, h⟩)
      · exact Or.inl h
      · exact Or.inr ⟨e, Or.inl rfl, h⟩
      · exact Or.inr ⟨d, Or.inr hd, h⟩
    · rintro (h | ⟨d, (rfl | hd), h⟩)
      · exact Or.inl (Or.inl h)
      · exact Or.inl (Or.inr h)
      · exact Or.inr ⟨d, hd, h⟩

/-- The row set after `N` insertions is exactly the union of the inserted
documents' vocabularies. -/
theorem runAdds_terms_mem (docs : List String) (t : String) :
    (t ∈ (runAdds docs).store.terms ↔ ∃ d ∈ docs, t ∈ (word_vector d).map Prod.fst) := by
  have h := terms_foldl_mem docs SysState.init t
  simpa [SysState.init, Store.empty, runAdds] using h

/-! ## Cell-level frame lemmas for the merge -/

theorem getD_replicate_zero (k m : Nat) : (List.replicate k 0).getD m 0 = 0 := by
  by_cases h : m < k
  · rw [List.getD_eq_getElem _ _ (by simpa using h)]
    simp
  · rw [List.getD_eq_default _ _ (by simpa using h)]

theorem indexOf_append_of_not_mem_left {t : String} {l r : List String} (h : t ∉ l) :
    l.length ≤ ((l ++ r).indexOf t) := by
  induction l with
  | nil => simp
  | cons x l ih =>
    have hx : x ≠ t := fun hxt => h (hxt ▸ List.mem_cons_self x l)
    have ht : t ∉ l := fun htl => h (List.mem_cons_of_mem _ htl)
    simp only [List.cons_append, List.indexOf_cons, List.length_cons]
    have : (x == t) = false := by simpa using hx
    rw [this]
    simpa using ih ht

/-- The find-the-column step commutes with extending every column: the new
rows do not change which column is found. -/
theorem find?_mergeDoc_old (s : Store) (id : Nat) (wv : List (String × Nat))
    {i : Nat} {c : Nat × List Nat} (hf : s.cols.find? (fun c => c.1 == i) = some c) :
    (mergeDoc s id wv).cols.find? (fun c => c.1 == i)
      = some (c.1, c.2 ++ List.replicate (newTerms s wv).length 0) := by
  unfold mergeDoc
  simp only [List.find?_append, List.find?_map]
  have hcomp : ((fun c : Nat × List Nat => c.1 == i) ∘
      (fun c : Nat × List Nat => (c.1, c.2 ++ List.replicate (newTerms s wv).length 0)))
      = fun c : Nat × List Nat => c.1 == i := rfl
  rw [hcomp, hf]
  rfl

/-- Frame property, existing cells: merging a new document leaves every
previously existing (term, document) cell unchanged. -/
theorem cell_mergeDoc_old (s : Store) (id : Nat) (wv : List (String × Nat))
    (hWF : ∀ c ∈ s.cols, c.2.length = s.terms.length)
    (t : String) (ht : t ∈ s.terms) (i : Nat) (hi : i ∈ s.cols.map Prod.fst) :
    cell (mergeDoc s id wv) t i = cell s t i := by
  cases hf : s.cols.find? (fun c => c.1 == i) with
  | none =>
    rw [List.find?_eq_none] at hf
    obtain ⟨c, hc, rfl⟩ := List.mem_map.mp hi
    exact absurd (by simp : (c.1 == c.1) = true) (hf c hc)
  | some c =>
    have hcm : c ∈ s.cols := List.mem_of_find?_eq_some hf
    have hlen : c.2.length = s.terms.length := hWF c hcm
    have hidx : s.terms.indexOf t < c.2.length :=
      hlen ▸ List.indexOf_lt_length.mpr ht
    unfold cell
    rw [hf, find?_mergeDoc_old s id wv hf]
    simp only [mergeDoc_terms]
    rw [List.indexOf_append_of_mem ht, List.getD_append _ _ _ _ hidx]

/-- Frame property, new rows: on a newly introduced term row every
pre-existing document's cell is filled with 0. -/
theorem cell_mergeDoc_newterm (s : Store) (id : Nat) (wv : List (String × Nat))
    (hWF : ∀ c ∈ s.cols, c.2.length = s.terms.length)
    (t : String) (ht : t ∈ newTerms s wv) (i : Nat) (hi : i ∈ s.cols.map Prod.fst) :
    cell (mergeDoc s id wv) t i = 0 := by
  cases hf : s.cols.find? (fun c => c.1 == i) with
  | none =>
    rw [List.find?_eq_none] at hf
    obtain ⟨c, hc, rfl⟩ := List.mem_map.mp hi
    exact absurd (by simp : (c.1 == c.1) = true) (hf c hc)
  | some c =>
    have hcm : c ∈ s.cols := List.mem_of_find?_eq_some hf
    have hlen : c.2.length = s.terms.length := hWF c hcm
    have htnot : t ∉ s.terms := by
      have := List.mem_filter.mp ht
      simpa using this.2
    unfold cell
    rw [find?_mergeDoc_old s id wv hf]
    simp only [mergeDoc_terms]
    rw [List.getD_append_right _ _ _ _ (hlen ▸ indexOf_append_of_not_mem_left htnot)]
    exact getD_replicate_zero _ _

/-! ## Sorting and ranking lemmas -/

instance keyOrderTotal (ls : List ℚ) : IsTotal Nat (KeyOrder ls) := ⟨fun i j => by
  unfold KeyOrder
  rcases lt_trichotomy (ls.getD i 0) (ls.getD j 0) with h | h | h
  · exact Or.inl (Or.inl h)
  · rcases Nat.le_total i j with hij | hij
    · exact Or.inl (Or.inr ⟨h, hij⟩)
    · exact Or.inr (Or.inr ⟨h.symm, hij⟩)
  · exact Or.inr (Or.inl h)⟩

instance keyOrderTrans (ls : List ℚ) : IsTrans Nat (KeyOrder ls) := ⟨fun i j k hij hjk => by
  unfold KeyOrder at *
  rcases hij with h1 | ⟨e1, l1⟩ <;> rcases hjk with h2 | ⟨e2, l2⟩
  · exact Or.inl (lt_trans h1 h2)
  · exact Or.inl (e2 ▸ h1)
  · exact Or.inl (e1 ▸ h2)
  · exact Or.inr ⟨e1.trans e2, le_trans l1 l2⟩⟩

theorem sortIdx_perm (ls : List ℚ) : (sortIdx ls).Perm (List.range ls.length) :=
  List.perm_insertionSort _ _

theorem sortIdx_length (ls : List ℚ) : (sortIdx ls).length = ls.length := by
  rw [(sortIdx_perm ls).length_eq, List.length_range]

theorem sortIdx_mem_lt (ls : List ℚ) {k : Nat} (h : k ∈ sortIdx ls) : k < ls.length := by
  have := (sortIdx_perm ls).mem_iff.mp h
  simpa using this

theorem sortIdx_nodup (ls : List ℚ) : (sortIdx ls).Nodup :=
  (sortIdx_perm ls).symm.nodup (List.nodup_range _)

theorem sortIdx_sorted (ls : List ℚ) : List.Sorted (KeyOrder ls) (sortIdx ls) :=
  List.sorted_insertionSort _ _

theorem distances_length (s : Store) (qid : Nat) :
    (distances s qid).length = (candidates s qid).length := by
  simp [distances]

/-- The printed ranking has `min 3 (number of candidate columns)` entries. -/
theorem rankResults_length (s : Store) (qid : Nat) :
    (rankResults s qid).length = min 3 (candidates s qid).length := by
  simp only [rankResults, List.length_map, List.length_take, sortIdx_length,
    distances_length]
  try omega

/-- Every entry of the ranking comes from a genuine candidate column, whose
id differs from the query's. -/
theorem rankResults_not_self (s : Store) (qid : Nat) :
    ∀ p ∈ rankResults s qid, p.1 ≠ qid := by
  intro p hp
  unfold rankResults at hp
  obtain ⟨k, hk, rfl⟩ := List.mem_map.mp hp
  have hk2 : k ∈ sortIdx (distances s qid) := List.mem_of_mem_take hk
  have hklt : k < (candidates s qid).length := by
    have := sortIdx_mem_lt _ hk2
    rwa [distances_length] at this
  have hmem : (candidates s qid).getD k (0, []) ∈ candidates s qid := by
    rw [List.getD_eq_getElem _ _ hklt]
    apply List.getElem_mem
  have hfilter := List.of_mem_filter hmem
  simpa using hfilter

theorem fst_getD (l : List (Nat × List Nat)) (k : Nat) :
    (l.getD k (0, [])).1 = (l.map Prod.fst).getD k 0 := by
  induction l generalizing k with
  | nil => simp
  | cons c l ih =>
    cases k with
    | zero => simp
    | succ k => simpa using ih k

theorem range'_getD {N k : Nat} (h : k < N) : (List.range' 1 N).getD k 0 = 1 + k := by
  rw [List.getD_eq_getElem _ _ (by simpa using h)]
  simp [List.getElem_range']

/-- The ranking is ascending in distance, with ties broken by original column
order: when the candidate ids are `1, …, N` in column order, consecutive
entries are strictly ordered lexicographically in (distance, id). -/
theorem rankResults_sorted (s : Store) (qid : Nat) (N : Nat)
    (hids : (candidates s qid).map Prod.fst = List.range' 1 N) :
    (rankResults s qid).Pairwise
      (fun a b => a.2 < b.2 ∨ (a.2 = b.2 ∧ a.1 < b.1)) := by
  have hcl : (candidates s qid).length = N := by
    have := congrArg List.length hids
    simpa using this
  unfold rankResults
  rw [List.pairwise_map]
  have hsorted := sortIdx_sorted (distances s qid)
  have hnodup : (sortIdx (distances s qid)).Pairwise (fun i j => i ≠ j) :=
    sortIdx_nodup _
  have htake : ((sortIdx (distances s qid)).take 3).Pairwise
      (fun i j => KeyOrder (distances s qid) i j ∧ i ≠ j) :=
    (hsorted.and hnodup).sublist (List.take_sublist _ _)
  refine htake.imp_of_mem ?_
  intro i j hi hj hij
  obtain ⟨hko, hne⟩ := hij
  have hilt : i < N := by
    have := sortIdx_mem_lt _ (List.mem_of_mem_take hi)
    rwa [distances_length, hcl] at this
  have hjlt : j < N := by
    have := sortIdx_mem_lt _ (List.mem_of_mem_take hj)
    rwa [distances_length, hcl] at this
  have hfi : ((candidates s qid).getD i (0, [])).1 = 1 + i := by
    rw [fst_getD, hids, range'_getD hilt]
  have hfj : ((candidates s qid).getD j (0, [])).1 = 1 + j := by
    rw [fst_getD, hids, range'_getD hjlt]
  dsimp only
  rw [hfi, hfj]
  rcases hko with h | ⟨he, hle⟩
  · exact Or.inl h
  · exact Or.inr ⟨he, by omega⟩

/-- In the merged store the candidate columns are exactly the pre-existing
columns (extended by zero rows): the query's fresh id is strictly larger than
every existing id, so only its own column is filtered out. -/
theorem candidates_mergeDoc (s : Store) (d : String)
    (hids : s.cols.map Prod.fst = List.range' 1 s.cols.length) :
    candidates (mergeDoc s (nextId s) (word_vector d)) (nextId s)
      = s.cols.map (fun c =>
          (c.1, c.2 ++ List.replicate (newTerms s (word_vector d)).length 0)) := by
  unfold candidates mergeDoc
  rw [List.filter_append]
  have h2 : List.filter (fun c => !(c.1 == nextId s))
      [(nextId s, (s.terms ++ newTerms s (word_vector d)).map
        (fun t => lookupCount (word_vector d) t))] = [] := by simp
  have h1 : List.filter (fun c => !(c.1 == nextId s))
      (s.cols.map (fun c =>
        (c.1, c.2 ++ List.replicate (newTerms s (word_vector d)).length 0)))
      = s.cols.map (fun c =>
        (c.1, c.2 ++ List.replicate (newTerms s (word_vector d)).length 0)) := by
    rw [List.filter_eq_self]
    intro c hc
    obtain ⟨c₀, hc₀, rfl⟩ := List.mem_map.mp hc
    have hmem : c₀.1 ∈ s.cols.map Prod.fst := List.mem_map_of_mem _ hc₀
    rw [hids, List.mem_range'_1] at hmem
    rw [nextId_eq]
    simp only [Bool.not_eq_eq_eq_not, Bool.not_true, beq_eq_false_iff_ne, ne_eq]
    omega
  rw [h1, h2, List.append_nil]

/-- The candidate ids in the merged store are `1, …, N` in column order. -/
theorem candidates_insert_ids (docs : List String) (q : String) :
    (candidates (insertState (runAdds docs) q).store
        (nextId (runAdds docs).store)).map Prod.fst
      = List.range' 1 docs.length := by
  obtain ⟨hlen, hids, hsum⟩ := WF_runAdds docs
  have hN := runAdds_cols_length docs
  unfold insertState
  dsimp only
  rw [candidates_mergeDoc _ _ hids, List.map_map]
  have hcomp : (Prod.fst ∘ fun c : Nat × List Nat =>
      (c.1, c.2 ++ List.replicate (newTerms (runAdds docs).store (word_vector q)).length 0))
      = Prod.fst := rfl
  rw [hcomp, hids, hN]

theorem candidates_insert_length (docs : List String) (q : String) :
    (candidates (insertState (runAdds docs) q).store
        (nextId (runAdds docs).store)).length = docs.length := by
  have h := congrArg List.length (candidates_insert_ids docs q)
  simpa using h

/-- Dispatch: a comparison call on an empty prior corpus reports the
insufficient corpus (lines 104-107) — after saving. -/
theorem similarity_check_insufficient (st : SysState) (q : String)
    (h : st.store.cols = []) :
    similarity_check st q false = (insertState st q, Outcome.insufficient) := by
  unfold similarity_check
  dsimp only
  rw [if_pos ⟨by rw [nextId_eq, h]; rfl, rfl⟩]

/-- Dispatch: a comparison call on a nonempty prior corpus emits the ranking
of the merged store against the fresh id. -/
theorem similarity_check_ranked (st : SysState) (q : String)
    (h : st.store.cols ≠ []) :
    similarity_check st q false
      = (insertState st q,
         Outcome.ranked (rankResults (insertState st q).store (nextId st.store))) := by
  unfold similarity_check
  dsimp only
  have h1 : ¬(nextId st.store = 1 ∧ false = false) := by
    rintro ⟨h1, _⟩
    rw [nextId_eq] at h1
    exact h (List.length_eq_zero.mp (by omega))
  rw [if_neg h1]
  simp

/-! ## Distance identities for columns with disjoint support -/

theorem dot_dist_disjoint : ∀ v w : List ℚ, v.length = w.length →
    (∀ i, v.getD i 0 = 0 ∨ w.getD i 0 = 0) →
    dotQ v w = 0 ∧ distSq v w = sumSq v + sumSq w := by
  intro v
  induction v with
  | nil =>
    intro w hl _
    have hw : w = [] := List.length_eq_zero.mp hl.symm
    subst hw
    simp [dotQ, distSq, sumSq]
  | cons a v ih =>
    intro w hl hdisj
    cases w with
    | nil => simp at hl
    | cons b w =>
      have hl2 : v.length = w.length := by simpa using hl
      have hd2 : ∀ i, v.getD i 0 = 0 ∨ w.getD i 0 = 0 := fun i => hdisj (i + 1)
      obtain ⟨hdot, hdist⟩ := ih w hl2 hd2
      have hab : a * b = 0 := by
        rcases hdisj 0 with h | h
        · simp at h; rw [h]; ring
        · simp at h; rw [h]; ring
      constructor
      · simp only [dotQ, List.zipWith_cons_cons, List.sum_cons]
        rw [hab]
        simpa [dotQ] using hdot
      · simp only [distSq, sumSq, List.zipWith_cons_cons, List.map_cons, List.sum_cons]
        have hsq : (a - b) ^ 2 = a ^ 2 + b ^ 2 := by
          have : (a - b) ^ 2 = a ^ 2 + b ^ 2 - 2 * (a * b) := by ring
          rw [this, hab]; ring
        rw [hsq]
        simp only [distSq, sumSq] at hdist
        rw [hdist]
        ring

theorem freqVec_length (x : List Nat) : (freqVec x).length = x.length :=
  List.length_map _ _

theorem freqVec_getD (x : List Nat) (i : Nat) :
    (freqVec x).getD i 0 = ((x.getD i 0 : Nat) : ℚ) / ((x.sum : Nat) : ℚ) := by
  by_cases h : i < x.length
  · have h2 : i < (freqVec x).length := by rw [freqVec_length]; exact h
    rw [List.getD_eq_getElem _ _ h2, List.getD_eq_getElem _ _ h]
    unfold freqVec
    rw [List.getElem_map]
  · have h2 : (freqVec x).length ≤ i := by rw [freqVec_length]; omega
    rw [List.getD_eq_default _ _ h2, List.getD_eq_default _ _ (by omega)]
    norm_num

/-- Two aligned count columns with disjoint support have orthogonal frequency
vectors, and the squared euclidean distance between the frequency vectors is
the sum of their squared norms (Pythagoras — not 2 in general). -/
theorem freq_disjoint_orth (x y : List Nat) (hlen : x.length = y.length)
    (hdisj : ∀ i, x.getD i 0 = 0 ∨ y.getD i 0 = 0) :
    dotQ (freqVec x) (freqVec y) = 0 ∧
    distSq (freqVec x) (freqVec y) = sumSq (freqVec x) + sumSq (freqVec y) := by
  apply dot_dist_disjoint
  · rw [freqVec_length, freqVec_length, hlen]
  · intro i
    rw [freqVec_getD, freqVec_getD]
    rcases hdisj i with h | h
    · left; rw [h]; simp
    · right; rw [h]; simp

/-! ## Case insensitivity of the tokenizer -/

theorem uint32_le_iff (a b : UInt32) : a ≤ b ↔ a.toNat ≤ b.toNat := by
  rw [UInt32.le_def, BitVec.le_def]
  exact Iff.rfl

/-- Membership in `\w` (ASCII model) depends only on the codepoint. -/
theorem isWordChar_char_iff (c : Char) : isWordChar c = true ↔
    (65 ≤ c.toNat ∧ c.toNat ≤ 90) ∨ (97 ≤ c.toNat ∧ c.toNat ≤ 122) ∨
    (48 ≤ c.toNat ∧ c.toNat ≤ 57) ∨ c.toNat = 95 := by
  have h95 : c = '_' ↔ c.toNat = 95 := by
    constructor
    · rintro rfl; rfl
    · intro h
      apply Char.ext
      apply UInt32.ext
      simpa [Char.toNat] using h
  unfold isWordChar Char.isAlphanum Char.isAlpha Char.isUpper Char.isLower Char.isDigit
  simp only [Bool.or_eq_true, Bool.and_eq_true, decide_eq_true_eq, beq_iff_eq, ge_iff_le,
    uint32_le_iff, h95]
  have e1 : UInt32.toNat 65 = 65 := rfl
  have e2 : UInt32.toNat 90 = 90 := rfl
  have e3 : UInt32.toNat 97 = 97 := rfl
  have e4 : UInt32.toNat 122 = 122 := rfl
  have e5 : UInt32.toNat 48 = 48 := rfl
  have e6 : UInt32.toNat 57 = 57 := rfl
  have e7 : ∀ d : Char, d.val.toNat = d.toNat := fun d => rfl
  rw [e1, e2, e3, e4, e5, e6, e7]
  tauto

theorem char_toNat_ofNat {n : Nat} (h : n.isValidChar) : (Char.ofNat n).toNat = n := by
  unfold Char.ofNat
  rw [dif_pos h]
  rfl

theorem toLower_toNat (c : Char) : (Char.toLower c).toNat =
    if 65 ≤ c.toNat ∧ c.toNat ≤ 90 then c.toNat + 32 else c.toNat := by
  unfold Char.toLower
  dsimp only
  by_cases h : c.toNat ≥ 65 ∧ c.toNat ≤ 90
  · rw [if_pos h, if_pos ⟨h.1, h.2⟩]
    exact char_toNat_ofNat (Or.inl (by omega))
  · rw [if_neg h, if_neg (by omega)]

/-- Lowercasing preserves membership in `\w`: `A`-`Z` maps into `a`-`z`, and
every other character is unchanged. -/
theorem isWordChar_toLower (c : Char) : isWordChar (Char.toLower c) = isWordChar c := by
  have h1 := isWordChar_char_iff (Char.toLower c)
  have h2 := isWordChar_char_iff c
  have h3 := toLower_toNat c
  by_cases h : 65 ≤ c.toNat ∧ c.toNat ≤ 90
  · rw [if_pos h] at h3
    have hL : isWordChar (Char.toLower c) = true :=
      h1.mpr (Or.inr (Or.inl ⟨by omega, by omega⟩))
    have hR : isWordChar c = true := h2.mpr (Or.inl h)
    rw [hL, hR]
  · rw [if_neg h] at h3
    rw [h3] at h1
    cases hb : isWordChar c with
    | false =>
      cases hb2 : isWordChar (Char.toLower c) with
      | false => rfl
      | true =>
        have := h2.mpr (h1.mp hb2)
        rw [hb] at this
        exact this.symm
    | true => exact h1.mpr (h2.mp hb)

theorem toLower_space : Char.toLower ' ' = ' ' := by decide

/-- Collapsing non-word runs commutes with lowercasing. -/
theorem squash_map_toLower : ∀ l : List Char,
    squashNonWord (l.map Char.toLower) = (squashNonWord l).map Char.toLower := by
  intro l
  induction l with
  | nil => rfl
  | cons c cs ih =>
    cases cs with
    | nil =>
      simp only [List.map_cons, List.map_nil, squashNonWord, isWordChar_toLower]
      by_cases h : isWordChar c
      · rw [if_pos h, if_pos h]
        rfl
      · rw [if_neg h, if_neg h]
        rfl
    | cons d cs2 =>
      simp only [List.map_cons, squashNonWord, isWordChar_toLower]
      simp only [List.map_cons] at ih
      by_cases hc : isWordChar c
      · rw [if_pos hc, if_pos hc, ih]
        rfl
      · rw [if_neg hc, if_neg hc]
        by_cases hd : isWordChar d
        · rw [if_pos hd, if_pos hd, ih]
          simp [toLower_space]
        · rw [if_neg hd, if_neg hd, ih]

/-- Strings equal up to letter case produce identical token streams. -/
theorem tokens_map_toLower_eq (s t : String)
    (h : s.data.map Char.toLower = t.data.map Char.toLower) : tokens s = tokens t := by
  unfold tokens
  have h2 : (squashNonWord s.data).map Char.toLower
      = (squashNonWord t.data).map Char.toLower := by
    rw [← squash_map_toLower, ← squash_map_toLower, h]
  rw [h2]

/-- Strings equal up to letter case produce identical word vectors. -/
theorem word_vector_case_insensitive (s t : String)
    (h : s.data.map Char.toLower = t.data.map Char.toLower) :
    word_vector s = word_vector t := by
  unfold word_vector
  rw [tokens_map_toLower_eq s t h]

/-! ## Registry id accounting -/

theorem mergeDoc_ids (s : Store) (id : Nat) (wv : List (String × Nat)) :
    (mergeDoc s id wv).cols.map Prod.fst = s.cols.map Prod.fst ++ [id] := by
  unfold mergeDoc
  simp only [List.map_append, List.map_map, List.map_cons, List.map_nil]
  have hcomp : (Prod.fst ∘ fun c : Nat × List Nat =>
      (c.1, c.2 ++ List.replicate (newTerms s wv).length 0)) = Prod.fst := rfl
  rw [hcomp]

theorem cols_length_foldl (docs : List String) (st : SysState) :
    ((docs.foldl (fun st d => (similarity_check st d true).1) st)).store.cols.length
      = st.store.cols.length + docs.length := by
  induction docs generalizing st with
  | nil => simp
  | cons d docs ih =>
    simp only [List.foldl_cons]
    rw [ih, similarity_check_fst]
    unfold insertState
    dsimp only
    rw [mergeDoc_cols_length]
    simp only [List.length_cons]
    omega

/-- The registry records ids `base+1, base+2, …` for successive insertions. -/
theorem reg_ids_foldl (docs : List String) (st : SysState) :
    ((docs.foldl (fun st d => (similarity_check st d true).1) st)).reg.map Prod.fst
      = st.reg.map Prod.fst ++ List.range' (st.store.cols.length + 1) docs.length := by
  induction docs generalizing st with
  | nil => simp
  | cons d docs ih =>
    simp only [List.foldl_cons]
    rw [ih, similarity_check_fst]
    unfold insertState
    dsimp only
    rw [mergeDoc_cols_length, nextId_eq]
    simp only [List.map_append, List.map_cons, List.map_nil, List.length_cons,
      List.range'_succ]
    rw [List.append_assoc]
    rfl

/-- The registry ids after `N` insertions from the bootstrapped state are
exactly `1, …, N` in insertion order. -/
theorem runAdds_reg_ids (docs : List String) :
    (runAdds docs).reg.map Prod.fst = List.range' 1 docs.length := by
  have h := reg_ids_foldl docs SysState.init
  simpa [SysState.init, Store.empty, runAdds] using h

/-! ## Claims -/

/-- C1, counterexample: `word_vector "Cat, cat!"` is `{cat: 2, "": 1}`, not
`{cat: 2}` — the trailing `!` becomes a separator and `re.split` then yields a
trailing empty token.  Likewise `"cat"` and `"cat!"` differ only in
punctuation yet tokenize differently, refuting the general claim. -/
theorem C1_tokenizer_counterexample :
    word_vector "Cat, cat!" = [("cat", 2), ("", 1)] ∧
    word_vector "Cat, cat!" ≠ [("cat", 2)] ∧
    word_vector "cat" ≠ word_vector "cat!" := by
  refine ⟨by decide, by decide, by decide⟩

/-- C1 (amended): strings that differ only in letter case tokenize to
identical term-count mappings, and `tokenize("Cat, cat!")` returns
`{cat: 2, "": 1}` — punctuation is normalized away except that a leading or
trailing non-word run contributes an empty-string token. -/
theorem C1_tokenizer_amended :
    (∀ s t : String, s.data.map Char.toLower = t.data.map Char.toLower →
      word_vector s = word_vector t) ∧
    word_vector "Cat, cat!" = [("cat", 2), ("", 1)] :=
  ⟨word_vector_case_insensitive, by decide⟩

/-- C1 witness: the amended theorem applied to the case variants `"Cat"` and
`"cAT"`. -/
theorem C1_tokenizer_witness :
    word_vector "Cat" = word_vector "cAT" ∧
    word_vector "Cat, cat!" = [("cat", 2), ("", 1)] :=
  ⟨C1_tokenizer_amended.1 "Cat" "cAT" (by decide), C1_tokenizer_amended.2⟩

/-- C2, counterexample: the insufficient-corpus invocation on a freshly
bootstrapped state still writes — afterwards the persisted state differs from
the prior one (the registry now holds the document). -/
theorem C2_persistence_counterexample :
    (similarity_check SysState.init "cat dog" false).2 = Outcome.insufficient ∧
    (similarity_check SysState.init "cat dog" false).1 ≠ SysState.init := by
  constructor
  · rw [similarity_check_insufficient _ _ rfl]
  · rw [similarity_check_insufficient _ _ rfl]
    decide

/-- C2 (amended): when `similarity_check` ends in the insufficient-corpus
error, both persisted files have already been rewritten with the new document
inserted (the save of lines 100-102 precedes the check of line 105): the
registry gains exactly the entry `(assigned id, text)` and the matrix gains
exactly one column. -/
theorem C2_persistence_amended (st : SysState) (d : String)
    (h : (similarity_check st d false).2 = Outcome.insufficient) :
    (similarity_check st d false).1.reg = st.reg ++ [(nextId st.store, d)] ∧
    (similarity_check st d false).1.store
      = mergeDoc st.store (nextId st.store) (word_vector d) ∧
    (similarity_check st d false).1.reg.length = st.reg.length + 1 := by
  rw [similarity_check_fst]
  unfold insertState
  simp

/-- C2 witness: the amended theorem at the bootstrapped state. -/
theorem C2_persistence_witness :
    (similarity_check SysState.init "cat dog" false).1.reg
      = SysState.init.reg ++ [(nextId SysState.init.store, "cat dog")] ∧
    (similarity_check SysState.init "cat dog" false).1.store
      = mergeDoc SysState.init.store (nextId SysState.init.store)
          (word_vector "cat dog") ∧
    (similarity_check SysState.init "cat dog" false).1.reg.length
      = SysState.init.reg.length + 1 :=
  C2_persistence_amended SysState.init "cat dog"
    (by rw [similarity_check_insufficient _ _ rfl])

/-- C3, counterexample: `"cat dog"` and `"fish bird"` have disjoint
vocabularies, yet the squared euclidean distance between their L1-normalized
columns is 1, not 2 (so the distance is 1, not √2). -/
theorem C3_distance_counterexample :
    (∀ t ∈ (word_vector "cat dog").map Prod.fst,
      t ∉ (word_vector "fish bird").map Prod.fst) ∧
    (insertState (runAdds ["cat dog"]) "fish bird").store
      = ⟨["cat", "dog", "fish", "bird"], [(1, [1, 1, 0, 0]), (2, [0, 0, 1, 1])]⟩ ∧
    distSq (freqVec [1, 1, 0, 0]) (freqVec [0, 0, 1, 1]) = 1 ∧
    (1 : ℚ) ≠ 2 := by
  refine ⟨by decide, by decide, ?_, by norm_num⟩
  simp [distSq, freqVec]
  norm_num

/-- C3 (amended): for two aligned count columns with disjoint support
(documents with disjoint vocabularies, zero-filled over the shared term
space), the L1-normalized frequency vectors are orthogonal and the squared
euclidean distance equals the sum of their squared norms — which is 2 only in
the single-spike case, not in general. -/
theorem C3_distance_amended (x y : List Nat) (hlen : x.length = y.length)
    (hdisj : ∀ i, x.getD i 0 = 0 ∨ y.getD i 0 = 0) :
    dotQ (freqVec x) (freqVec y) = 0 ∧
    distSq (freqVec x) (freqVec y) = sumSq (freqVec x) + sumSq (freqVec y) :=
  freq_disjoint_orth x y hlen hdisj

/-- C3 witness: the amended theorem at the two columns of the
counterexample corpus. -/
theorem C3_distance_witness :
    dotQ (freqVec [1, 1, 0, 0]) (freqVec [0, 0, 1, 1]) = 0 ∧
    distSq (freqVec [1, 1, 0, 0]) (freqVec [0, 0, 1, 1])
      = sumSq (freqVec [1, 1, 0, 0]) + sumSq (freqVec [0, 0, 1, 1]) :=
  C3_distance_amended [1, 1, 0, 0] [0, 0, 1, 1] (by decide) (fun i => by
    match i with
    | 0 => right; rfl
    | 1 => right; rfl
    | 2 => left; rfl
    | 3 => left; rfl
    | n + 4 => left; rfl)

/-- C4: the id assigned to a new document equals the number of columns of the
matrix file before insertion (including the `words` label column); starting
from the bootstrapped store, the matrix columns and registry entries carry
ids `1, 2, …, N` in insertion order. -/
theorem C4_id_assignment :
    (∀ (st : SysState) (d : String) (b : Bool),
      (similarity_check st d b).1.reg
        = st.reg ++ [((colNames st.store).length, d)]) ∧
    (∀ docs : List String,
      (runAdds docs).store.cols.map Prod.fst = List.range' 1 docs.length) ∧
    (∀ docs : List String,
      (runAdds docs).reg.map Prod.fst = List.range' 1 docs.length) := by
  refine ⟨?_, ?_, ?_⟩
  · intro st d b
    rw [similarity_check_fst]
    rfl
  · intro docs
    obtain ⟨_, hids, _⟩ := WF_runAdds docs
    rw [hids, runAdds_cols_length]
  · exact runAdds_reg_ids

/-- C5: a comparison call (`add_document = false`) on a corpus that will
contain only the query reports the distinct recoverable outcome
`Outcome.insufficient` and produces no ranking. -/
theorem C5_insufficient_corpus (st : SysState) (q : String)
    (h : st.store.cols = []) :
    (similarity_check st q false).2 = Outcome.insufficient ∧
    ∀ rs, (similarity_check st q false).2 ≠ Outcome.ranked rs := by
  rw [similarity_check_insufficient st q h]
  exact ⟨rfl, fun rs => by simp⟩

/-- C5 witness: the theorem at the bootstrapped state. -/
theorem C5_insufficient_corpus_witness :
    (similarity_check SysState.init "solo document" false).2
      = Outcome.insufficient ∧
    ∀ rs, (similarity_check SysState.init "solo document" false).2
      ≠ Outcome.ranked rs :=
  C5_insufficient_corpus SysState.init "solo document" rfl

/-- C6: with `N ≥ 1` documents already in the corpus, a comparison call
returns a ranking of exactly `min 3 (corpus_size - 1)` entries (the corpus
counts `N + 1` documents after the query is inserted), in ascending order of
(squared) euclidean distance with ties broken by original column order —
consecutive entries are strictly ordered lexicographically in (distance, id). -/
theorem C6_topk (docs : List String) (q : String) (hne : docs ≠ []) :
    ∃ rs : List (Nat × ℚ),
      (similarity_check (runAdds docs) q false).2 = Outcome.ranked rs ∧
      rs.length = min 3 ((docs.length + 1) - 1) ∧
      rs.Pairwise (fun a b => a.2 < b.2 ∨ (a.2 = b.2 ∧ a.1 < b.1)) := by
  have hcols : (runAdds docs).store.cols ≠ [] := by
    intro h
    have hlen := runAdds_cols_length docs
    rw [h] at hlen
    exact hne (List.length_eq_zero.mp hlen.symm)
  refine ⟨rankResults (insertState (runAdds docs) q).store
    (nextId (runAdds docs).store), ?_, ?_, ?_⟩
  · rw [similarity_check_ranked _ _ hcols]
  · rw [rankResults_length, candidates_insert_length]
    omega
  · exact rankResults_sorted _ _ docs.length (candidates_insert_ids docs q)

/-- C6 witness: the theorem at the three-document corpus of the spec's
concrete scenario. -/
theorem C6_topk_witness :
    ∃ rs : List (Nat × ℚ),
      (similarity_check (runAdds ["cat dog", "cat cat", "dog dog"])
        "cat dog" false).2 = Outcome.ranked rs ∧
      rs.length = min 3 (((["cat dog", "cat cat", "dog dog"] :
        List String).length + 1) - 1) ∧
      rs.Pairwise (fun a b => a.2 < b.2 ∨ (a.2 = b.2 ∧ a.1 < b.1)) :=
  C6_topk ["cat dog", "cat cat", "dog dog"] "cat dog" (by decide)

/-- C7: the query's own column is excluded both from the candidate set over
which distances are computed and from the emitted ranking. -/
theorem C7_self_exclusion (s : Store) (qid : Nat) :
    (∀ c ∈ candidates s qid, c.1 ≠ qid) ∧
    (∀ p ∈ rankResults s qid, p.1 ≠ qid) := by
  constructor
  · intro c hc
    have hf := List.of_mem_filter hc
    simpa using hf
  · exact rankResults_not_self s qid

/-- C7 witness: the theorem at the two-document store, with the concrete
ranking entry `(1, 1)` and candidate column `(1, [1,1,0,0])`. -/
theorem C7_self_exclusion_witness :
    ((1, [1, 1, 0, 0]) : Nat × List Nat).1 ≠ 2 ∧ ((1, (1 : ℚ))).1 ≠ 2 := by
  have hrank : rankResults
      ⟨["cat", "dog", "fish", "bird"], [(1, [1, 1, 0, 0]), (2, [0, 0, 1, 1])]⟩ 2
      = [(1, 1)] := by
    simp only [rankResults, distances, candidates, queryCol, sortIdx, KeyOrder,
      List.filter, List.find?, List.insertionSort, List.range, freqVec, distSq,
      List.map, List.zipWith, List.sum]
    simp only [List.foldr, List.getD, List.get?, List.take, List.orderedInsert]
    norm_num
  constructor
  · exact (C7_self_exclusion
      ⟨["cat", "dog", "fish", "bird"], [(1, [1, 1, 0, 0]), (2, [0, 0, 1, 1])]⟩ 2).1
      (1, [1, 1, 0, 0]) (by decide)
  · exact (C7_self_exclusion
      ⟨["cat", "dog", "fish", "bird"], [(1, [1, 1, 0, 0]), (2, [0, 0, 1, 1])]⟩ 2).2
      (1, 1) (by rw [hrank]; exact List.mem_singleton.mpr rfl)

/-- C8: after `N` insertions from the bootstrapped store the matrix has
exactly `N` document columns plus the term-label column, its row set is the
union of the `N` documents' vocabularies, and a further insertion only
extends the matrix: every old term row is still present and the old column
ids are a prefix of the new ones — the matrix never shrinks. -/
theorem C8_matrix_growth :
    (∀ docs : List String,
      (runAdds docs).store.cols.length = docs.length ∧
      (colNames (runAdds docs).store).length = docs.length + 1) ∧
    (∀ (docs : List String) (t : String),
      t ∈ (runAdds docs).store.terms ↔
        ∃ d ∈ docs, t ∈ (word_vector d).map Prod.fst) ∧
    (∀ (docs : List String) (d : String),
      (∀ t ∈ (runAdds docs).store.terms, t ∈ (runAdds (docs ++ [d])).store.terms) ∧
      (runAdds docs).store.cols.map Prod.fst
        <+: (runAdds (docs ++ [d])).store.cols.map Prod.fst) := by
  refine ⟨?_, ?_, ?_⟩
  · intro docs
    refine ⟨runAdds_cols_length docs, ?_⟩
    simp [colNames, runAdds_cols_length docs]
  · exact runAdds_terms_mem
  · intro docs d
    rw [runAdds_append, similarity_check_fst]
    unfold insertState
    dsimp only
    constructor
    · rw [mergeDoc_terms]
      exact fun t ht => (List.prefix_append _ _).subset ht
    · rw [mergeDoc_ids]
      exact List.prefix_append _ _

/-- C9: the tokenizer always returns a nonempty mapping whose counts are all
at least 1 (even for the empty string, which yields the empty-string token),
so every document column in any reachable store has a positive total count
and the L1 normalization never divides by zero. -/
theorem C9_no_division_by_zero :
    (∀ s : String, word_vector s ≠ [] ∧ ∀ p ∈ word_vector s, 1 ≤ p.2) ∧
    (∀ docs : List String, ∀ c ∈ (runAdds docs).store.cols, 1 ≤ c.2.sum) := by
  constructor
  · exact fun s => ⟨word_vector_ne_nil s, word_vector_pos s⟩
  · intro docs
    exact (WF_runAdds docs).2.2

/-- C9 witness: the theorem at the empty string and a one-document corpus. -/
theorem C9_no_division_by_zero_witness :
    word_vector "" ≠ [] ∧
    1 ≤ (("", 1) : String × Nat).2 ∧
    1 ≤ ((1, [1, 1]) : Nat × List Nat).2.sum :=
  ⟨(C9_no_division_by_zero.1 "").1,
   (C9_no_division_by_zero.1 "").2 ("", 1) (by decide),
   C9_no_division_by_zero.2 ["cat dog"] (1, [1, 1]) (by decide)⟩

/-- C10: merging a new document leaves every previously existing
(term, document) cell unchanged, and on every newly introduced term row the
cells of all pre-existing documents are filled with 0. -/
theorem C10_merge_frame (s : Store) (id : Nat) (wv : List (String × Nat))
    (hWF : ∀ c ∈ s.cols, c.2.length = s.terms.length) :
    (∀ t ∈ s.terms, ∀ i ∈ s.cols.map Prod.fst,
      cell (mergeDoc s id wv) t i = cell s t i) ∧
    (∀ t ∈ newTerms s wv, ∀ i ∈ s.cols.map Prod.fst,
      cell (mergeDoc s id wv) t i = 0) :=
  ⟨fun t ht i hi => cell_mergeDoc_old s id wv hWF t ht i hi,
   fun t ht i hi => cell_mergeDoc_newterm s id wv hWF t ht i hi⟩

/-- C10 witness: the frame property at a concrete store and merge. -/
theorem C10_merge_frame_witness :
    cell (mergeDoc ⟨["cat", "dog"], [(1, [1, 1])]⟩ 2 [("dog", 1), ("fish", 1)])
        "cat" 1
      = cell ⟨["cat", "dog"], [(1, [1, 1])]⟩ "cat" 1 ∧
    cell (mergeDoc ⟨["cat", "dog"], [(1, [1, 1])]⟩ 2 [("dog", 1), ("fish", 1)])
        "fish" 1 = 0 :=
  ⟨(C10_merge_frame ⟨["cat", "dog"], [(1, [1, 1])]⟩ 2 [("dog", 1), ("fish", 1)]
      (by decide)).1 "cat" (by decide) 1 (by decide),
   (C10_merge_frame ⟨["cat", "dog"], [(1, [1, 1])]⟩ 2 [("dog", 1), ("fish", 1)]
      (by decide)).2 "fish" (by decide) 1 (by decide)⟩

end TextSim
